import Mathlib

/-!
# Verification of the PDF splitter (`src/pdf_splitter.py`)

A shallow embedding of the repository's single source file.  File sizes are
measured in megabytes and modelled as exact rationals (`ℚ`); the Python
implementation computes them with floating point, which we idealize as exact
arithmetic.  The per-fragment serialized size is not computable from the page
data (it depends on the PDF library), so a `Doc` carries an oracle
`fragSize start count` giving the measured size of the file obtained by
serializing pages `[start, start+count)`.

I/O failure is modelled by two oracles on the document: `openFail` (the
`PdfReader` constructor raises) and `writeFail n` (the `n`-th write attempt of
the run raises midway; Python's `open(path, 'wb')` creates/truncates the file
before `writer.write` runs, so a failed write leaves a file with unusable
contents on disk).  All filesystem effects of the planner are recorded as an
explicit event trace so that the final disk state can be computed.
-/

/-- A source document, as `split_pdf` observes it:
`totalPages` is `len(reader.pages)`, `sizeMB` is
`os.path.getsize(input_path)/(1024*1024)`, `fragSize s c` is the measured
size in MB of the file produced by serializing pages `[s, s+c)`,
`parent`/`stem`/`suffix` are the path components of `input_path`, and
`openFail`/`writeFail` model raised I/O errors (see module docstring). -/
structure Doc where
  totalPages : ℕ
  sizeMB : ℚ
  fragSize : ℕ → ℕ → ℚ
  parent : String
  stem : String
  suffix : String
  openFail : Bool
  writeFail : ℕ → Bool

/-- An accepted output fragment: pages `[start, start+count)` of the source,
written as the `num`-th part (1-based) at `path`. -/
structure Frag where
  start : ℕ
  count : ℕ
  num : ℕ
  path : String
deriving DecidableEq, Repr

/-- A filesystem effect of the planner:
`write p s c` — a successful `writer.write` of pages `[s, s+c)` to `p`;
`failedWrite p` — a write attempt to `p` that raised midway, leaving a file
with unusable contents (the `with open(p,'wb')` already created it);
`delete p` — `os.remove(p)`. -/
inductive FSEvent where
  | write (path : String) (start count : ℕ)
  | failedWrite (path : String)
  | delete (path : String)
deriving DecidableEq, Repr

/-- Contents of a file on disk: either a complete serialization of pages
`[start, start+count)`, or the unusable leftover of a failed write. -/
inductive FileContent where
  | pages (start count : ℕ)
  | corrupt
deriving DecidableEq, Repr

/-- Disk state: an association list from path to file content
(most recent entry first, one entry per path). -/
abbrev Disk := List (String × FileContent)

/-- Remove the entry (if any) for path `p` from a disk state. -/
def removePath (disk : Disk) (p : String) : Disk :=
  disk.filter (fun e => e.1 ≠ p)

/-- Apply one filesystem event to a disk state. -/
def applyEvent (disk : Disk) : FSEvent → Disk
  | .write p s c => (p, .pages s c) :: removePath disk p
  | .failedWrite p => (p, .corrupt) :: removePath disk p
  | .delete p => removePath disk p

/-- Apply a trace of filesystem events, in order. -/
def runEvents (evs : List FSEvent) (disk : Disk) : Disk :=
  evs.foldl applyEvent disk

/-- `f"{input_path.stem}_part{chunk_num}.pdf"` (line 50 of the source; note
the literal lowercase `.pdf`). -/
def partName (d : Doc) (num : ℕ) : String :=
  d.stem ++ "_part" ++ toString num ++ ".pdf"

/-- `input_path.parent / partName` (line 50 of the source). -/
def partPath (d : Doc) (num : ℕ) : String :=
  d.parent ++ "/" ++ partName d num

/-- Python's `int()` applied to a rational: truncation toward zero. -/
def ratTrunc (q : ℚ) : ℤ :=
  if q < 0 then -⌊-q⌋ else ⌊q⌋

/-- `pages_per_chunk = max(1, int(total_pages * max_size_mb / file_size_mb))`
(line 32 of the source). -/
def initPpc (d : Doc) (ceiling : ℚ) : ℕ :=
  (max 1 (ratTrunc ((d.totalPages : ℚ) * ceiling / d.sizeMB))).toNat

/-- The `while current_page < total_pages` loop of `split_pdf`
(lines 38–68 of the source), with the filesystem effects made explicit.

State: `current` = `current_page`, `ppc` = `pages_per_chunk`,
`num` = `chunk_num`, `attempt` counts write attempts so far (it exists only
to index the `writeFail` oracle).  The hypothesis `hppc : 1 ≤ ppc` is the
source invariant `pages_per_chunk ≥ 1` (both `max(1, …)` expressions).

One iteration: the inner `for` loop takes `min ppc (totalPages - current)`
pages; the chunk is written to `partPath d num`; if the write raises, the
exception propagates (`.error ()`) with the ruined file left behind; if the
measured size exceeds the ceiling and more than one page was taken, the file
is removed, `current_page` is reset to `chunk_start`, `pages_per_chunk` is
halved (floor, minimum 1), and the loop retries without incrementing
`chunk_num`; otherwise the fragment is accepted. -/
def splitLoop (d : Doc) (ceiling : ℚ) (current ppc num attempt : ℕ)
    (hppc : 1 ≤ ppc) : List FSEvent × Except Unit (List Frag) :=
  if _hlt : current < d.totalPages then
    if d.writeFail attempt then
      ([.failedWrite (partPath d num)], .error ())
    else
      if _hbig : ceiling < d.fragSize current (min ppc (d.totalPages - current)) ∧
          1 < min ppc (d.totalPages - current) then
        let rest := splitLoop d ceiling current (max 1 (ppc / 2)) num
          (attempt + 1) (le_max_left 1 (ppc / 2))
        (.write (partPath d num) current (min ppc (d.totalPages - current)) ::
          .delete (partPath d num) :: rest.1, rest.2)
      else
        let rest := splitLoop d ceiling
          (current + min ppc (d.totalPages - current)) ppc (num + 1)
          (attempt + 1) hppc
        (.write (partPath d num) current (min ppc (d.totalPages - current)) ::
          rest.1,
         match rest.2 with
         | .ok l =>
             .ok (⟨current, min ppc (d.totalPages - current), num,
               partPath d num⟩ :: l)
         | .error e => .error e)
  else
    ([], .ok [])
termination_by (d.totalPages - current, ppc)
decreasing_by
  · apply Prod.Lex.right
    omega
  · apply Prod.Lex.left
    omega

/-- The initial estimate is at least one page (the `max(1, …)` on line 32). -/
lemma initPpc_pos (d : Doc) (ceiling : ℚ) : 1 ≤ initPpc d ceiling := by
  have h : (1 : ℤ) ≤ max 1 (ratTrunc ((d.totalPages : ℚ) * ceiling / d.sizeMB)) :=
    le_max_left _ _
  simp only [initPpc]
  omega

/-- Step-indexed (fuel-bounded) version of the same loop, used to state
termination with an explicit iteration bound and to evaluate concrete runs:
it executes at most `fuel` iterations of the `while` loop and returns `none`
if the loop is still running after that many. Its body is iteration-for-
iteration the body of `splitLoop`. -/
def splitLoopF (d : Doc) (ceiling : ℚ) :
    ℕ → ℕ → ℕ → ℕ → ℕ → Option (List FSEvent × Except Unit (List Frag))
  | 0, _, _, _, _ => none
  | fuel + 1, current, ppc, num, attempt =>
    if current < d.totalPages then
      if d.writeFail attempt then
        some ([.failedWrite (partPath d num)], .error ())
      else
        if ceiling < d.fragSize current (min ppc (d.totalPages - current)) ∧
            1 < min ppc (d.totalPages - current) then
          match splitLoopF d ceiling fuel current (max 1 (ppc / 2)) num
            (attempt + 1) with
          | none => none
          | some rest =>
            some (.write (partPath d num) current
                (min ppc (d.totalPages - current)) ::
              .delete (partPath d num) :: rest.1, rest.2)
        else
          match splitLoopF d ceiling fuel
            (current + min ppc (d.totalPages - current)) ppc (num + 1)
            (attempt + 1) with
          | none => none
          | some rest =>
            some (.write (partPath d num) current
                (min ppc (d.totalPages - current)) :: rest.1,
              match rest.2 with
              | .ok l =>
                  .ok (⟨current, min ppc (d.totalPages - current), num,
                    partPath d num⟩ :: l)
              | .error e => .error e)
    else
      some ([], .ok [])

/-- `covers N p l`: the fragments in `l`, in order, have non-empty page
ranges that are consecutive starting at page `p` (each fragment starts where
the previous one ended) and together cover exactly the interval `[p, N)`.
`covers N 0 l` is the coverage property: contiguous, pairwise disjoint,
non-empty ranges whose union is exactly `[0, N)` in original order. -/
def covers (N : ℕ) : ℕ → List Frag → Bool
  | p, [] => p == N
  | p, f :: rest => f.start == p && f.count != 0 && covers N (p + f.count) rest

/-- The quantity `(totalPages - current) + ppc` strictly decreases at every
iteration of the loop, so `(totalPages - current) + ppc < fuel` iterations
always suffice: the fuel-bounded loop finishes and agrees with `splitLoop`. -/
lemma splitLoopF_complete (d : Doc) (c : ℚ) :
    ∀ fuel current ppc num attempt (hppc : 1 ≤ ppc),
      d.totalPages - current + ppc < fuel →
      splitLoopF d c fuel current ppc num attempt =
        some (splitLoop d c current ppc num attempt hppc) := by
  intro fuel
  induction fuel with
  | zero => intro current ppc num attempt hppc hfuel; omega
  | succ fuel ih =>
    intro current ppc num attempt hppc hfuel
    rw [splitLoop]
    by_cases h1 : current < d.totalPages
    · by_cases h2 : d.writeFail attempt = true
      · simp [splitLoopF, h1, h2]
      · by_cases h3 : c < d.fragSize current (min ppc (d.totalPages - current)) ∧
            1 < min ppc (d.totalPages - current)
        · have h4 := h3.2
          simp [splitLoopF, h1, h2, h3,
            ih current (max 1 (ppc / 2)) num (attempt + 1)
              (le_max_left 1 (ppc / 2)) (by omega)]
        · rw [lt_min_iff] at h3
          simp [splitLoopF, h1, h2, h3,
            ih (current + min ppc (d.totalPages - current)) ppc (num + 1)
              (attempt + 1) hppc (by omega)]
    · simp [splitLoopF, splitLoop, h1]

/-- `split_pdf(input_path, max_size_mb)` (lines 18–70 of the source):
short-circuit when the file is already within the ceiling; otherwise open the
reader (which may raise), compute the initial `pages_per_chunk` estimate and
run the chunking loop.  Returns the filesystem event trace together with
either the accepted fragments in acceptance order or the propagated error. -/
def split_pdf (d : Doc) (ceiling : ℚ) : List FSEvent × Except Unit (List Frag) :=
  if d.sizeMB ≤ ceiling then
    ([], .ok [])
  else if d.openFail then
    ([], .error ())
  else
    splitLoop d ceiling 0 (initPpc d ceiling) 1 0 (initPpc_pos d ceiling)

/-- Evaluation helper: a concrete run of `split_pdf` can be computed through
the fuel-bounded loop. -/
lemma split_pdf_eval (d : Doc) (c : ℚ) (hgt : ¬ d.sizeMB ≤ c)
    (hopen : d.openFail = false) (p : ℕ) (hp : initPpc d c = p) (fuel : ℕ)
    (hfuel : d.totalPages + p < fuel)
    (r : List FSEvent × Except Unit (List Frag))
    (hr : splitLoopF d c fuel 0 p 1 0 = some r) :
    split_pdf d c = r := by
  have hppc : 1 ≤ p := hp ▸ initPpc_pos d c
  have h := splitLoopF_complete d c fuel 0 p 1 0 hppc (by omega)
  rw [hr] at h
  rw [split_pdf, if_neg hgt, if_neg (by simp [hopen])]
  have hloop : splitLoop d c 0 (initPpc d c) 1 0 (initPpc_pos d c) =
      splitLoop d c 0 p 1 0 hppc := by
    congr 1
  rw [hloop]
  exact (Option.some.injEq _ _).mp h.symm

/-- Membership in a disk state after removing a path. -/
lemma mem_removePath {disk : Disk} {p : String} {e : String × FileContent} :
    e ∈ removePath disk p ↔ e ∈ disk ∧ e.1 ≠ p := by
  simp [removePath, List.mem_filter]

/-- Number of iterations the loop spends at the fixed chunk start `start`
before it either accepts a fragment, errors out, or finds no page left:
exactly the guards of `splitLoop` at `current = start`, counting each retry
and the final accepting iteration. -/
def retrySteps (d : Doc) (ceiling : ℚ) (start : ℕ) (ppc attempt : ℕ) : ℕ :=
  if start < d.totalPages then
    if d.writeFail attempt then 1
    else
      if _h : ceiling < d.fragSize start (min ppc (d.totalPages - start)) ∧
          1 < min ppc (d.totalPages - start) then
        1 + retrySteps d ceiling start (max 1 (ppc / 2)) (attempt + 1)
      else 1
  else 0
termination_by ppc
decreasing_by omega

/-- The value of `pages_per_chunk` at the start of each iteration of the
loop, in iteration order (same guards and state updates as `splitLoop`). -/
def ppcTrace (d : Doc) (ceiling : ℚ) (current ppc num attempt : ℕ)
    (hppc : 1 ≤ ppc) : List ℕ :=
  if _hlt : current < d.totalPages then
    if d.writeFail attempt then [ppc]
    else
      if _h : ceiling < d.fragSize current (min ppc (d.totalPages - current)) ∧
          1 < min ppc (d.totalPages - current) then
        ppc :: ppcTrace d ceiling current (max 1 (ppc / 2)) num (attempt + 1)
          (le_max_left 1 (ppc / 2))
      else
        ppc :: ppcTrace d ceiling (current + min ppc (d.totalPages - current))
          ppc (num + 1) (attempt + 1) hppc
  else []
termination_by (d.totalPages - current, ppc)
decreasing_by
  · apply Prod.Lex.right
    omega
  · apply Prod.Lex.left
    omega

/-- `if split_files:` (line 95): a document counts as split when the planner
returned a non-empty fragment list. -/
def splitSucceeded (r : List FSEvent × Except Unit (List Frag)) : Bool :=
  match r.2 with
  | .ok l => !l.isEmpty
  | .error _ => false

/-- The `for pdf_file in pdf_files` loop of `process_pdfs` (lines 91–96):
each document is processed with `split_pdf`; an exception is caught at this
level (the per-document outcome is recorded and the loop goes on) and
`total_split` is incremented exactly when a non-empty fragment list came
back.  Returns the per-document outcomes in order and the final counter. -/
def processLoop (c : ℚ) : List Doc → ℕ → List (Except Unit (List Frag)) × ℕ
  | [], total => ([], total)
  | d :: rest, total =>
    let r := split_pdf d c
    let next := processLoop c rest (if splitSucceeded r then total + 1 else total)
    (r.2 :: next.1, next.2)

/-- `process_pdfs` over an already-resolved candidate list, starting with
`total_split = 0` (line 91). -/
def processPdfs (docs : List Doc) (c : ℚ) :
    List (Except Unit (List Frag)) × ℕ :=
  processLoop c docs 0

/-- Python's `str.lower()`, modelled character-wise. -/
def lowerStr (s : String) : String :=
  String.mk (s.data.map Char.toLower)

/-- The Batch Driver's candidate test for a single file:
`input_path.suffix.lower() == '.pdf'` (lines 78 and 83 of the source). -/
def isPdfCandidate (d : Doc) : Bool :=
  lowerStr d.suffix == ".pdf"

/-- Invariants of a successful loop run, by induction on fuel: the accepted
fragments cover `[current, totalPages)` contiguously and in order, every
fragment is written at `partPath` of its ordinal, the ordinals count up
consecutively from `num`, every fragment holds at least one page, and every
fragment with more than one page measures at most the ceiling. -/
lemma splitLoopF_ok_spec (d : Doc) (c : ℚ) :
    ∀ fuel current ppc num attempt evs l,
      1 ≤ ppc → current ≤ d.totalPages →
      splitLoopF d c fuel current ppc num attempt = some (evs, .ok l) →
      covers d.totalPages current l = true ∧
      (∀ f ∈ l, f.path = partPath d f.num ∧ 1 ≤ f.count ∧
        (1 < f.count → d.fragSize f.start f.count ≤ c)) ∧
      l.map Frag.num = List.range' num l.length := by
  intro fuel
  induction fuel with
  | zero =>
    intro current ppc num attempt evs l _ _ h
    simp [splitLoopF] at h
  | succ fuel ih =>
    intro current ppc num attempt evs l hppc hcur h
    simp only [splitLoopF] at h
    by_cases h1 : current < d.totalPages
    · rw [if_pos h1] at h
      by_cases h2 : d.writeFail attempt = true
      · rw [if_pos h2] at h
        simp at h
      · rw [if_neg h2] at h
        by_cases h3 : c < d.fragSize current (min ppc (d.totalPages - current)) ∧
            1 < min ppc (d.totalPages - current)
        · rw [if_pos h3] at h
          cases hrec : splitLoopF d c fuel current (max 1 (ppc / 2)) num
              (attempt + 1) with
          | none => rw [hrec] at h; simp at h
          | some rest =>
            obtain ⟨evs', res'⟩ := rest
            rw [hrec] at h
            simp only [Option.some.injEq, Prod.mk.injEq] at h
            obtain ⟨-, hres⟩ := h
            exact ih current (max 1 (ppc / 2)) num (attempt + 1) evs' l
              (le_max_left 1 (ppc / 2)) hcur (by rw [hrec, hres])
        · rw [if_neg h3] at h
          cases hrec : splitLoopF d c fuel
              (current + min ppc (d.totalPages - current)) ppc (num + 1)
              (attempt + 1) with
          | none => rw [hrec] at h; simp at h
          | some rest =>
            obtain ⟨evs', res'⟩ := rest
            rw [hrec] at h
            cases res' with
            | error e => simp at h
            | ok l' =>
              simp only [Option.some.injEq, Prod.mk.injEq, Except.ok.injEq] at h
              obtain ⟨-, hl⟩ := h
              subst hl
              have htake : 1 ≤ min ppc (d.totalPages - current) := by omega
              have hcur' : current + min ppc (d.totalPages - current) ≤
                  d.totalPages := by omega
              obtain ⟨hcov, hfacts, hmap⟩ := ih
                (current + min ppc (d.totalPages - current)) ppc (num + 1)
                (attempt + 1) evs' l' hppc hcur' hrec
              refine ⟨?_, ?_, ?_⟩
              · simp [covers, hcov]
                omega
              · intro f hf
                simp only [List.mem_cons] at hf
                rcases hf with rfl | hf'
                · exact ⟨rfl, htake, fun hgt =>
                    le_of_not_lt (fun hlt => h3 ⟨hlt, hgt⟩)⟩
                · exact hfacts f hf'
              · simp [hmap, List.range'_succ]
    · rw [if_neg h1] at h
      simp only [Option.some.injEq, Prod.mk.injEq] at h
      obtain ⟨-, hres⟩ := h
      obtain rfl : l = [] := by
        cases hres' : l with
        | nil => rfl
        | cons a as => rw [hres'] at hres; simp at hres
      refine ⟨?_, by simp, by simp⟩
      simp only [covers]
      have : current = d.totalPages := by omega
      simp [this]

/-- `splitLoop` is the value of the fuel-bounded loop at fuel
`(totalPages - current) + ppc + 1`. -/
lemma splitLoop_as_F (d : Doc) (c : ℚ) (current ppc num attempt : ℕ)
    (hppc : 1 ≤ ppc) :
    splitLoopF d c (d.totalPages - current + ppc + 1) current ppc num attempt =
      some (splitLoop d c current ppc num attempt hppc) :=
  splitLoopF_complete d c _ current ppc num attempt hppc (by omega)

/-- The invariants of `splitLoopF_ok_spec`, transferred to `splitLoop`. -/
lemma splitLoop_ok_spec (d : Doc) (c : ℚ) (current ppc num attempt : ℕ)
    (hppc : 1 ≤ ppc) (hcur : current ≤ d.totalPages) (l : List Frag)
    (hok : (splitLoop d c current ppc num attempt hppc).2 = .ok l) :
    covers d.totalPages current l = true ∧
    (∀ f ∈ l, f.path = partPath d f.num ∧ 1 ≤ f.count ∧
      (1 < f.count → d.fragSize f.start f.count ≤ c)) ∧
    l.map Frag.num = List.range' num l.length := by
  apply splitLoopF_ok_spec d c (d.totalPages - current + ppc + 1) current ppc
    num attempt (splitLoop d c current ppc num attempt hppc).1 l hppc hcur
  rw [splitLoop_as_F, ← hok]

/-- The invariants of a successful `split_pdf` run on a document above the
ceiling: the ordinals of the accepted fragments start at 1. -/
lemma split_pdf_ok_spec (d : Doc) (c : ℚ) (hgt : ¬ d.sizeMB ≤ c)
    (l : List Frag) (hok : (split_pdf d c).2 = .ok l) :
    covers d.totalPages 0 l = true ∧
    (∀ f ∈ l, f.path = partPath d f.num ∧ 1 ≤ f.count ∧
      (1 < f.count → d.fragSize f.start f.count ≤ c)) ∧
    l.map Frag.num = List.range' 1 l.length := by
  rw [split_pdf, if_neg hgt] at hok
  by_cases ho : d.openFail = true
  · rw [if_pos ho] at hok
    simp at hok
  · rw [if_neg ho] at hok
    exact splitLoop_ok_spec d c 0 _ 1 0 (initPpc_pos d c) (Nat.zero_le _) l hok

/-- Disk lemma, by induction on fuel: when no write attempt fails, a
completed loop run returns a fragment list, and every file its event trace
leaves on disk either was there before the run or is the file of an accepted
fragment. -/
lemma splitLoopF_disk (d : Doc) (c : ℚ) (hw : ∀ n, d.writeFail n = false) :
    ∀ fuel current ppc num attempt evs res,
      splitLoopF d c fuel current ppc num attempt = some (evs, res) →
      ∃ l, res = Except.ok l ∧
        ∀ disk e, e ∈ runEvents evs disk →
          e ∈ disk ∨ ∃ f ∈ l, e = (f.path, FileContent.pages f.start f.count) := by
  intro fuel
  induction fuel with
  | zero =>
    intro current ppc num attempt evs res h
    simp [splitLoopF] at h
  | succ fuel ih =>
    intro current ppc num attempt evs res h
    simp only [splitLoopF] at h
    by_cases h1 : current < d.totalPages
    · rw [if_pos h1, hw attempt, if_neg (by simp)] at h
      by_cases h3 : c < d.fragSize current (min ppc (d.totalPages - current)) ∧
          1 < min ppc (d.totalPages - current)
      · rw [if_pos h3] at h
        cases hrec : splitLoopF d c fuel current (max 1 (ppc / 2)) num
            (attempt + 1) with
        | none => rw [hrec] at h; simp at h
        | some rest =>
          obtain ⟨evs', res'⟩ := rest
          rw [hrec] at h
          simp only [Option.some.injEq, Prod.mk.injEq] at h
          obtain ⟨hevs, hres⟩ := h
          subst hevs hres
          obtain ⟨l, hl, hmem⟩ := ih current (max 1 (ppc / 2)) num
            (attempt + 1) evs' res' hrec
          refine ⟨l, hl, ?_⟩
          intro disk e he
          rcases hmem _ e he with hin | hf
          · left
            simp only [applyEvent, mem_removePath, List.mem_cons] at hin
            obtain ⟨hor, hne⟩ := hin
            rcases hor with rfl | ⟨hd, -⟩
            · exact absurd rfl hne
            · exact hd
          · right
            exact hf
      · rw [if_neg h3] at h
        cases hrec : splitLoopF d c fuel
            (current + min ppc (d.totalPages - current)) ppc (num + 1)
            (attempt + 1) with
        | none => rw [hrec] at h; simp at h
        | some rest =>
          obtain ⟨evs', res'⟩ := rest
          rw [hrec] at h
          simp only [Option.some.injEq, Prod.mk.injEq] at h
          obtain ⟨hevs, hres⟩ := h
          subst hevs
          obtain ⟨l', hl', hmem'⟩ := ih
            (current + min ppc (d.totalPages - current)) ppc (num + 1)
            (attempt + 1) evs' res' hrec
          subst hl'
          refine ⟨⟨current, min ppc (d.totalPages - current), num,
            partPath d num⟩ :: l', hres.symm, ?_⟩
          intro disk e he
          rcases hmem' _ e he with hin | ⟨f, hfmem, hfe⟩
          · simp only [applyEvent, List.mem_cons, mem_removePath] at hin
            rcases hin with rfl | ⟨hd, -⟩
            · right
              exact ⟨_, List.mem_cons_self _ _, rfl⟩
            · left
              exact hd
          · right
            exact ⟨f, List.mem_cons_of_mem _ hfmem, hfe⟩
    · rw [if_neg h1] at h
      simp only [Option.some.injEq, Prod.mk.injEq] at h
      obtain ⟨hevs, hres⟩ := h
      subst hevs
      refine ⟨[], hres.symm, ?_⟩
      intro disk e he
      left
      simpa [runEvents] using he

/-- When no write attempt fails, every file left on disk by a `split_pdf`
run (started on an empty disk) is the file of an accepted fragment. -/
lemma split_pdf_disk (d : Doc) (c : ℚ) (hw : ∀ n, d.writeFail n = false) :
    ∀ e ∈ runEvents (split_pdf d c).1 [], ∃ l f, (split_pdf d c).2 = .ok l ∧
      f ∈ l ∧ e = (f.path, FileContent.pages f.start f.count) := by
  intro e he
  rw [split_pdf] at he ⊢
  by_cases hle : d.sizeMB ≤ c
  · rw [if_pos hle] at he
    simp [runEvents] at he
  · rw [if_neg hle] at he ⊢
    by_cases ho : d.openFail = true
    · rw [if_pos ho] at he
      simp [runEvents] at he
    · rw [if_neg ho] at he ⊢
      obtain ⟨l, hl, hmem⟩ := splitLoopF_disk d c hw
        (d.totalPages - 0 + initPpc d c + 1) 0 (initPpc d c) 1 0
        (splitLoop d c 0 (initPpc d c) 1 0 (initPpc_pos d c)).1
        (splitLoop d c 0 (initPpc d c) 1 0 (initPpc_pos d c)).2
        (by rw [splitLoop_as_F])
      rcases hmem [] e he with hin | ⟨f, hfmem, hfe⟩
      · simp at hin
      · exact ⟨l, f, hl, hfmem, hfe⟩

/-- When neither opening nor any write fails, `split_pdf` returns a fragment
list (it never raises): the planner is total, in particular it does not fail
on an oversized single page. -/
lemma split_pdf_total (d : Doc) (c : ℚ) (hw : ∀ n, d.writeFail n = false)
    (ho : d.openFail = false) : ∃ l, (split_pdf d c).2 = Except.ok l := by
  rw [split_pdf]
  by_cases hle : d.sizeMB ≤ c
  · rw [if_pos hle]
    exact ⟨[], rfl⟩
  · rw [if_neg hle, if_neg (by simp [ho])]
    obtain ⟨l, hl, -⟩ := splitLoopF_disk d c hw
      (d.totalPages - 0 + initPpc d c + 1) 0 (initPpc d c) 1 0
      (splitLoop d c 0 (initPpc d c) 1 0 (initPpc_pos d c)).1
      (splitLoop d c 0 (initPpc d c) 1 0 (initPpc_pos d c)).2
      (by rw [splitLoop_as_F])
    exact ⟨l, hl⟩

/-- The retry sub-loop bound: starting from any positive `ppc`, the loop
spends at most `⌈log₂ ppc⌉ + 1` iterations at one chunk start, because each
retry at least halves `ppc` (and a retry needs `ppc ≥ 2`). -/
lemma retrySteps_le (d : Doc) (c : ℚ) (start : ℕ) :
    ∀ ppc attempt, 1 ≤ ppc →
      retrySteps d c start ppc attempt ≤ Nat.clog 2 ppc + 1 := by
  intro ppc
  induction ppc using Nat.strong_induction_on with
  | _ ppc ih =>
    intro attempt hppc
    rw [retrySteps]
    by_cases h1 : start < d.totalPages
    · rw [if_pos h1]
      by_cases h2 : d.writeFail attempt = true
      · simp [h2]
      · rw [if_neg h2]
        by_cases h3 : c < d.fragSize start (min ppc (d.totalPages - start)) ∧
            1 < min ppc (d.totalPages - start)
        · rw [dif_pos h3]
          have h4 : 2 ≤ ppc := by
            have := h3.2
            omega
          have hmax : max 1 (ppc / 2) = ppc / 2 := by omega
          have hrec := ih (max 1 (ppc / 2)) (by omega) (attempt + 1)
            (le_max_left 1 (ppc / 2))
          have hmono : Nat.clog 2 (ppc / 2) ≤ Nat.clog 2 ((ppc + 1) / 2) :=
            Nat.clog_mono_right 2 (by omega)
          have hclog : Nat.clog 2 ppc = Nat.clog 2 ((ppc + 2 - 1) / 2) + 1 :=
            Nat.clog_of_two_le (by omega) h4
          rw [hmax] at hrec ⊢
          have : (ppc + 2 - 1) / 2 = (ppc + 1) / 2 := by omega
          rw [this] at hclog
          omega
        · rw [dif_neg h3]
          omega
    · rw [if_neg h1]
      omega

/-- `pages_per_chunk` never increases over a run: the trace of its values at
successive loop iterations is non-increasing, and every value in the trace
is at most the starting estimate. -/
lemma ppcTrace_chain (d : Doc) (c : ℚ) :
    ∀ fuel current ppc num attempt (hppc : 1 ≤ ppc),
      d.totalPages - current + ppc < fuel →
      List.Chain' (fun a b => b ≤ a)
        (ppcTrace d c current ppc num attempt hppc) ∧
      ∀ q ∈ ppcTrace d c current ppc num attempt hppc, q ≤ ppc := by
  intro fuel
  induction fuel with
  | zero => intro current ppc num attempt hppc hfuel; omega
  | succ fuel ih =>
    intro current ppc num attempt hppc hfuel
    rw [ppcTrace]
    by_cases h1 : current < d.totalPages
    · rw [dif_pos h1]
      by_cases h2 : d.writeFail attempt = true
      · rw [if_pos h2]
        exact ⟨List.chain'_singleton ppc, by simp⟩
      · rw [if_neg h2]
        by_cases h3 : c < d.fragSize current (min ppc (d.totalPages - current)) ∧
            1 < min ppc (d.totalPages - current)
        · rw [dif_pos h3]
          have h4 : 2 ≤ ppc := by
            have := h3.2
            omega
          obtain ⟨hchain, hle⟩ := ih current (max 1 (ppc / 2)) num
            (attempt + 1) (le_max_left 1 (ppc / 2)) (by omega)
          refine ⟨List.chain'_cons'.mpr ⟨?_, hchain⟩, ?_⟩
          · intro y hy
            have := hle y (List.mem_of_mem_head? hy)
            omega
          · intro q hq
            rcases List.mem_cons.mp hq with rfl | hq'
            · exact le_rfl
            · have := hle q hq'
              omega
        · rw [dif_neg h3]
          have htake : 1 ≤ min ppc (d.totalPages - current) := by omega
          obtain ⟨hchain, hle⟩ := ih
            (current + min ppc (d.totalPages - current)) ppc (num + 1)
            (attempt + 1) hppc (by omega)
          refine ⟨List.chain'_cons'.mpr ⟨?_, hchain⟩, ?_⟩
          · intro y hy
            exact hle y (List.mem_of_mem_head? hy)
          · intro q hq
            rcases List.mem_cons.mp hq with rfl | hq'
            · exact le_rfl
            · exact hle q hq'
    · rw [dif_neg h1]
      exact ⟨List.chain'_nil, by simp⟩

/-- The batch loop processes every document, in order, regardless of
failures, and its counter adds to the accumulator exactly the number of
documents whose split produced a non-empty fragment list. -/
lemma processLoop_spec (c : ℚ) :
    ∀ docs total,
      (processLoop c docs total).1 = docs.map (fun d => (split_pdf d c).2) ∧
      (processLoop c docs total).2 =
        total +
          (docs.filter (fun d => splitSucceeded (split_pdf d c))).length := by
  intro docs
  induction docs with
  | nil => intro total; simp [processLoop]
  | cons d rest ih =>
    intro total
    have key := ih (if splitSucceeded (split_pdf d c) then total + 1 else total)
    constructor
    · simp only [processLoop, List.map_cons]
      rw [key.1]
    · simp only [processLoop]
      rw [key.2, List.filter_cons]
      by_cases hs : splitSucceeded (split_pdf d c) = true
      · simp [hs]
        omega
      · simp [hs]

/-- Example document: 4 pages, 8 MB, every page serializing to 3 MB.  With a
4 MB ceiling the initial estimate is 2 pages per chunk, the first candidate
(2 pages, 6 MB) is rejected and retried at 1 page per chunk. -/
def W4 : Doc where
  totalPages := 4
  sizeMB := 8
  fragSize := fun _ count => 3 * count
  parent := "p"
  stem := "s"
  suffix := ".pdf"
  openFail := false
  writeFail := fun _ => false

/-- Example document: 3 pages, 2.5 MB, each page serializing to 0.7 MB.
With a 2 MB ceiling the initial estimate is 2 pages per chunk and both
chunks (one with 2 pages, one with 1) are accepted first try. -/
def W2 : Doc where
  totalPages := 3
  sizeMB := 5/2
  fragSize := fun _ count => 7/10 * count
  parent := "p"
  stem := "s"
  suffix := ".pdf"
  openFail := false
  writeFail := fun _ => false

/-- Example document: a single page whose serialization (5 MB) exceeds any
small ceiling. -/
def W1 : Doc where
  totalPages := 1
  sizeMB := 2
  fragSize := fun _ _ => 5
  parent := "p"
  stem := "s"
  suffix := ".pdf"
  openFail := false
  writeFail := fun _ => false

/-- Example document whose first write attempt raises. -/
def Wfail : Doc where
  totalPages := 1
  sizeMB := 2
  fragSize := fun _ _ => 1/2
  parent := "p"
  stem := "s"
  suffix := ".pdf"
  openFail := false
  writeFail := fun n => n == 0

/-- Example document already under the ceiling. -/
def Wsmall : Doc where
  totalPages := 2
  sizeMB := 1
  fragSize := fun _ count => (1/2) * count
  parent := "p"
  stem := "s"
  suffix := ".pdf"
  openFail := false
  writeFail := fun _ => false

/-- Example document with zero pages but a file size above the ceiling. -/
def W0 : Doc where
  totalPages := 0
  sizeMB := 2
  fragSize := fun _ _ => 0
  parent := "p"
  stem := "s"
  suffix := ".pdf"
  openFail := false
  writeFail := fun _ => false

/-- Example document whose original extension is upper-case `.PDF` (the
Batch Driver's case-insensitive candidate test accepts it). -/
def WPDF : Doc where
  totalPages := 1
  sizeMB := 2
  fragSize := fun _ _ => 1/2
  parent := "p"
  stem := "s"
  suffix := ".PDF"
  openFail := false
  writeFail := fun _ => false

/-- The complete run of `split_pdf` on `W4` with ceiling 4: one rejected
2-page candidate, then four accepted 1-page fragments. -/
lemma W4_run : split_pdf W4 4 =
    ([.write (partPath W4 1) 0 2, .delete (partPath W4 1),
      .write (partPath W4 1) 0 1, .write (partPath W4 2) 1 1,
      .write (partPath W4 3) 2 1, .write (partPath W4 4) 3 1],
     .ok [⟨0, 1, 1, partPath W4 1⟩, ⟨1, 1, 2, partPath W4 2⟩,
       ⟨2, 1, 3, partPath W4 3⟩, ⟨3, 1, 4, partPath W4 4⟩]) := by
  apply split_pdf_eval W4 4 (by norm_num [W4]) rfl 2 ?_ 7 (by norm_num [W4])
  · norm_num [splitLoopF, W4]
  · norm_num [initPpc, ratTrunc, W4]
    rfl

/-- The complete run of `split_pdf` on `W2` with ceiling 2: a 2-page and a
1-page fragment, both accepted first try. -/
lemma W2_run : split_pdf W2 2 =
    ([.write (partPath W2 1) 0 2, .write (partPath W2 2) 2 1],
     .ok [⟨0, 2, 1, partPath W2 1⟩, ⟨2, 1, 2, partPath W2 2⟩]) := by
  apply split_pdf_eval W2 2 (by norm_num [W2]) rfl 2 ?_ 6 (by norm_num [W2])
  · norm_num [splitLoopF, W2]
  · norm_num [initPpc, ratTrunc, W2]
    rfl

/-- The complete run of `split_pdf` on `W1` with ceiling 1: the single page
serializes to 5 MB, far above the ceiling, and is accepted anyway. -/
lemma W1_run : split_pdf W1 1 =
    ([.write (partPath W1 1) 0 1], .ok [⟨0, 1, 1, partPath W1 1⟩]) := by
  apply split_pdf_eval W1 1 (by norm_num [W1]) rfl 1 ?_ 3 (by norm_num [W1])
  · norm_num [splitLoopF, W1]
  · norm_num [initPpc, ratTrunc, W1]

/-- The complete run of `split_pdf` on `Wfail` with ceiling 1: the first
write attempt raises, the error propagates, and the ruined candidate file
stays behind. -/
lemma Wfail_run : split_pdf Wfail 1 =
    ([.failedWrite (partPath Wfail 1)], .error ()) := by
  apply split_pdf_eval Wfail 1 (by norm_num [Wfail]) rfl 1 ?_ 3
    (by norm_num [Wfail])
  · norm_num [splitLoopF, Wfail]
  · norm_num [initPpc, ratTrunc, Wfail]

/-- The complete run of `split_pdf` on `WPDF` with ceiling 1: the output
fragment's name ends in the literal `.pdf`, not the original `.PDF`. -/
lemma WPDF_run : split_pdf WPDF 1 =
    ([.write (partPath WPDF 1) 0 1], .ok [⟨0, 1, 1, partPath WPDF 1⟩]) := by
  apply split_pdf_eval WPDF 1 (by norm_num [WPDF]) rfl 1 ?_ 3
    (by norm_num [WPDF])
  · norm_num [splitLoopF, WPDF]
  · norm_num [initPpc, ratTrunc, WPDF]

/-- C1: for a document above the ceiling, every fragment accepted by the
planner that contains more than one page measures at most the ceiling
(line 59's test rejects any larger one), and with working I/O the planner
always returns an accepted-fragment list — in particular it never fails or
rejects an oversized single-page fragment, which is simply accepted. -/
theorem c1_multi_page_fragments_within_ceiling (d : Doc) (c : ℚ)
    (hgt : c < d.sizeMB) :
    (∀ l, (split_pdf d c).2 = Except.ok l →
      ∀ f ∈ l, 1 < f.count → d.fragSize f.start f.count ≤ c) ∧
    ((∀ n, d.writeFail n = false) → d.openFail = false →
      ∃ l, (split_pdf d c).2 = Except.ok l) := by
  constructor
  · intro l hok f hf hcount
    exact ((split_pdf_ok_spec d c (not_le.mpr hgt) l hok).2.1 f hf).2.2 hcount
  · exact fun hw ho => split_pdf_total d c hw ho

/-- C1 witness: on `W2` (above its 2 MB ceiling) the accepted 2-page
fragment indeed measures within the ceiling, and the oversized single page
of `W1` is still accepted. -/
theorem c1_witness :
    W2.fragSize 0 2 ≤ 2 ∧
    (split_pdf W1 1).2 = Except.ok [⟨0, 1, 1, partPath W1 1⟩] ∧
    (1 : ℚ) < W1.fragSize 0 1 := by
  have hsize := (c1_multi_page_fragments_within_ceiling W2 2
    (by norm_num [W2])).1
    [⟨0, 2, 1, partPath W2 1⟩, ⟨2, 1, 2, partPath W2 2⟩]
    (by rw [W2_run]) ⟨0, 2, 1, partPath W2 1⟩ (by simp) (by norm_num)
  obtain ⟨l1, hl1⟩ := (c1_multi_page_fragments_within_ceiling W1 1
    (by norm_num [W1])).2 (fun n => rfl) rfl
  exact ⟨hsize, by rw [W1_run], by norm_num [W1]⟩

/-- C2: for a document with at least one page whose size exceeds the
ceiling, a successful run's accepted fragments have non-empty page ranges
that are consecutive from page 0 (each starts where the previous ended) and
together cover exactly `[0, totalPages)` in original order — and at least
one fragment is produced. -/
theorem c2_fragment_ranges_cover_document (d : Doc) (c : ℚ)
    (hN : 1 ≤ d.totalPages) (hgt : c < d.sizeMB) :
    ∀ l, (split_pdf d c).2 = Except.ok l →
      covers d.totalPages 0 l = true ∧ l ≠ [] := by
  intro l hok
  have hcov := (split_pdf_ok_spec d c (not_le.mpr hgt) l hok).1
  refine ⟨hcov, ?_⟩
  intro hnil
  subst hnil
  simp only [covers, beq_iff_eq] at hcov
  omega

/-- C2 witness: the run on `W2` accepts fragments with ranges `[0,2)` and
`[2,3)`, covering the 3-page document exactly. -/
theorem c2_witness :
    1 ≤ W2.totalPages ∧ (2 : ℚ) < W2.sizeMB ∧
    covers W2.totalPages 0
      [⟨0, 2, 1, partPath W2 1⟩, ⟨2, 1, 2, partPath W2 2⟩] = true ∧
    ([⟨0, 2, 1, partPath W2 1⟩, ⟨2, 1, 2, partPath W2 2⟩] : List Frag) ≠ [] := by
  refine ⟨by norm_num [W2], by norm_num [W2], ?_⟩
  exact c2_fragment_ranges_cover_document W2 2 (by norm_num [W2])
    (by norm_num [W2]) _ (by rw [W2_run])

/-- C3: the planning loop terminates.  The retry sub-loop at one fixed chunk
start runs at most `⌈log₂ ppc⌉ + 1` iterations (each retry at least halves
`pages_per_chunk`, which stays ≥ 1); the whole loop finishes within
`(totalPages - current) + ppc` iterations — witnessed by the fuel-bounded
loop completing on that much fuel — because every accepted fragment advances
`current_page` by at least one page. -/
theorem c3_loop_terminates (d : Doc) (c : ℚ) :
    (∀ start ppc attempt, 1 ≤ ppc →
      retrySteps d c start ppc attempt ≤ Nat.clog 2 ppc + 1) ∧
    (∀ current ppc num attempt (hppc : 1 ≤ ppc),
      splitLoopF d c (d.totalPages - current + ppc + 1) current ppc num
        attempt = some (splitLoop d c current ppc num attempt hppc)) ∧
    (∀ l, (split_pdf d c).2 = Except.ok l → ∀ f ∈ l, 1 ≤ f.count) := by
  refine ⟨fun start ppc attempt h => retrySteps_le d c start ppc attempt h,
    fun current ppc num attempt hppc =>
      splitLoop_as_F d c current ppc num attempt hppc, ?_⟩
  intro l hok f hf
  by_cases hle : d.sizeMB ≤ c
  · rw [split_pdf, if_pos hle] at hok
    simp only [Except.ok.injEq] at hok
    subst hok
    exact absurd hf (List.not_mem_nil f)
  · exact ((split_pdf_ok_spec d c hle l hok).2.1 f hf).2.1

/-- C3 witness: on `W4` the retry sub-loop starting from the initial
estimate 2 takes at most `⌈log₂ 2⌉ + 1 = 2` iterations, fuel 7 completes the
whole loop, and the first accepted fragment holds at least one page. -/
theorem c3_witness :
    retrySteps W4 4 0 2 0 ≤ Nat.clog 2 2 + 1 ∧
    splitLoopF W4 4 (W4.totalPages - 0 + 2 + 1) 0 2 1 0 =
      some (splitLoop W4 4 0 2 1 0 (by norm_num)) ∧
    1 ≤ (⟨0, 1, 1, partPath W4 1⟩ : Frag).count := by
  refine ⟨(c3_loop_terminates W4 4).1 0 2 0 (by norm_num),
    (c3_loop_terminates W4 4).2.1 0 2 1 0 (by norm_num), ?_⟩
  exact (c3_loop_terminates W4 4).2.2
    [⟨0, 1, 1, partPath W4 1⟩, ⟨1, 1, 2, partPath W4 2⟩,
      ⟨2, 1, 3, partPath W4 3⟩, ⟨3, 1, 4, partPath W4 4⟩]
    (by rw [W4_run]) ⟨0, 1, 1, partPath W4 1⟩ (by simp)

/-- C4: a document already at or under the ceiling is returned unchanged:
the planner returns the empty fragment list, records no filesystem event,
and any disk state is left untouched. -/
theorem c4_under_ceiling_is_noop (d : Doc) (c : ℚ) (hle : d.sizeMB ≤ c) :
    split_pdf d c = ([], Except.ok []) ∧
    ∀ disk : Disk, runEvents (split_pdf d c).1 disk = disk := by
  have h : split_pdf d c = ([], .ok []) := by
    rw [split_pdf, if_pos hle]
  exact ⟨h, fun disk => by rw [h]; rfl⟩

/-- C4 witness: `Wsmall` (1 MB against a 4 MB ceiling) is not split and a
concrete empty disk stays empty. -/
theorem c4_witness :
    Wsmall.sizeMB ≤ 4 ∧ split_pdf Wsmall 4 = ([], Except.ok []) ∧
    runEvents (split_pdf Wsmall 4).1 [] = [] := by
  have h := c4_under_ceiling_is_noop Wsmall 4 (by norm_num [Wsmall])
  exact ⟨by norm_num [Wsmall], h.1, h.2 []⟩

/-- C5: when a candidate fragment measures above the ceiling and holds more
than one page, the planner discards the attempt: the candidate file is
written then deleted, the loop resumes at the same `chunk_start` with
`pages_per_chunk` halved (floor division, minimum 1, strictly smaller) and
the same ordinal, and the accepted fragments are exactly those of the
retry.  Moreover `pages_per_chunk` is never reset or increased afterwards:
its trace over the whole run is non-increasing. -/
theorem c5_oversized_candidate_discarded_and_ppc_monotone (d : Doc) (c : ℚ)
    (current ppc num attempt : ℕ) (hppc : 1 ≤ ppc)
    (hlt : current < d.totalPages) (hw : d.writeFail attempt = false)
    (hbig : c < d.fragSize current (min ppc (d.totalPages - current)))
    (hmulti : 1 < min ppc (d.totalPages - current)) :
    splitLoop d c current ppc num attempt hppc =
      (.write (partPath d num) current (min ppc (d.totalPages - current)) ::
        .delete (partPath d num) ::
        (splitLoop d c current (max 1 (ppc / 2)) num (attempt + 1)
          (le_max_left 1 (ppc / 2))).1,
       (splitLoop d c current (max 1 (ppc / 2)) num (attempt + 1)
          (le_max_left 1 (ppc / 2))).2) ∧
    max 1 (ppc / 2) < ppc ∧
    List.Chain' (fun a b => b ≤ a)
      (ppcTrace d c current ppc num attempt hppc) := by
  refine ⟨?_, by omega, (ppcTrace_chain d c
    (d.totalPages - current + ppc + 1) current ppc num attempt hppc
    (by omega)).1⟩
  rw [splitLoop, dif_pos hlt, if_neg (by simp [hw]), dif_pos ⟨hbig, hmulti⟩]

/-- C5 witness: on `W4` at the initial state the 2-page candidate (6 MB > 4
MB) is discarded; the loop retries at page 0 with `pages_per_chunk = 1` and
the same ordinal 1, and the trace of `pages_per_chunk` values never
increases. -/
theorem c5_witness :
    splitLoop W4 4 0 2 1 0 (by norm_num) =
      (.write (partPath W4 1) 0 (min 2 (W4.totalPages - 0)) ::
        .delete (partPath W4 1) ::
        (splitLoop W4 4 0 (max 1 (2 / 2)) 1 1 (le_max_left 1 (2 / 2))).1,
       (splitLoop W4 4 0 (max 1 (2 / 2)) 1 1 (le_max_left 1 (2 / 2))).2) ∧
    max 1 (2 / 2) < 2 ∧
    List.Chain' (fun a b => b ≤ a) (ppcTrace W4 4 0 2 1 0 (by norm_num)) :=
  c5_oversized_candidate_discarded_and_ppc_monotone W4 4 0 2 1 0
    (by norm_num) (by norm_num [W4]) rfl (by norm_num [W4]) (by norm_num [W4])

/-- C6 counterexample: a failed write does leave a non-accepted file on
disk.  On `Wfail` the first write attempt raises; the planner propagates the
failure (accepting nothing) and the ruined candidate file remains — so it is
not true that after a propagated failure no non-accepted fragment file
remains. -/
theorem c6_counterexample :
    (split_pdf Wfail 1).2 = Except.error () ∧
    runEvents (split_pdf Wfail 1).1 [] =
      [(partPath Wfail 1, FileContent.corrupt)] ∧
    runEvents (split_pdf Wfail 1).1 [] ≠ [] := by
  rw [Wfail_run]
  exact ⟨rfl, rfl, by simp [runEvents, applyEvent]⟩

/-- C6 (amended): when no write attempt fails, every file a `split_pdf` run
leaves on an initially empty disk is the file of an accepted fragment
(oversized multi-page candidates are deleted before their retry), and such a
file with more than one page measures within the ceiling. -/
theorem c6_no_orphan_files (d : Doc) (c : ℚ)
    (hw : ∀ n, d.writeFail n = false) :
    ∀ e ∈ runEvents (split_pdf d c).1 [], ∃ l f,
      (split_pdf d c).2 = Except.ok l ∧ f ∈ l ∧
      e = (f.path, FileContent.pages f.start f.count) ∧
      (1 < f.count → d.fragSize f.start f.count ≤ c) := by
  intro e he
  obtain ⟨l, f, hok, hf, he'⟩ := split_pdf_disk d c hw e he
  refine ⟨l, f, hok, hf, he', ?_⟩
  by_cases hle : d.sizeMB ≤ c
  · rw [split_pdf, if_pos hle] at he
    simp [runEvents] at he
  · exact ((split_pdf_ok_spec d c hle l hok).2.1 f hf).2.2

/-- C6 witness: after the failure-free run on `W4`, the final file
`s_part1.pdf` on disk is the accepted first fragment. -/
theorem c6_witness :
    ∃ l f, (split_pdf W4 4).2 = Except.ok l ∧ f ∈ l ∧
      ((partPath W4 1, FileContent.pages 0 1) : String × FileContent) =
        (f.path, FileContent.pages f.start f.count) ∧
      (1 < f.count → W4.fragSize f.start f.count ≤ 4) := by
  apply c6_no_orphan_files W4 4 (fun n => rfl) (partPath W4 1, .pages 0 1)
  rw [W4_run]
  decide

/-- C7: the batch driver records an outcome for every candidate document in
order — a failure on one document never stops the rest — and its final
summary counts exactly the documents whose split returned a non-empty
fragment list: failed documents and documents already under the ceiling
(which return the empty list) are not counted. -/
theorem c7_batch_isolation_and_summary (docs : List Doc) (c : ℚ) :
    (processPdfs docs c).1 = docs.map (fun d => (split_pdf d c).2) ∧
    (processPdfs docs c).2 =
      (docs.filter (fun d => splitSucceeded (split_pdf d c))).length ∧
    ∀ d : Doc, splitSucceeded (split_pdf d c) = true ↔
      ∃ l, (split_pdf d c).2 = Except.ok l ∧ l ≠ [] := by
  refine ⟨(processLoop_spec c docs 0).1,
    by simpa using (processLoop_spec c docs 0).2, ?_⟩
  intro d
  simp only [splitSucceeded]
  cases hres : (split_pdf d c).2 with
  | ok l =>
    constructor
    · intro h
      refine ⟨l, rfl, ?_⟩
      intro hnil
      subst hnil
      simp at h
    · rintro ⟨l', hl', hne⟩
      injection hl' with h'
      subst h'
      simpa using hne
  | error e =>
    constructor
    · intro h
      simp at h
    · rintro ⟨l', hl', -⟩
      exact absurd hl' (by simp)

/-- C8: for a document above a positive ceiling, the initial pages-per-chunk
estimate equals `max(1, ⌊totalPages ⋅ ceiling / size⌋)` with the floor taken
of the exact rational quotient (the quotient is non-negative, so Python's
truncating `int()` is the floor). -/
theorem c8_initial_estimate_formula (d : Doc) (c : ℚ) (hc : 0 < c)
    (hgt : c < d.sizeMB) :
    (initPpc d c : ℤ) = max 1 ⌊(d.totalPages : ℚ) * c / d.sizeMB⌋ := by
  have hs : 0 < d.sizeMB := lt_trans hc hgt
  have hq : 0 ≤ (d.totalPages : ℚ) * c / d.sizeMB := by positivity
  rw [initPpc, ratTrunc, if_neg (not_lt.mpr hq),
    Int.toNat_of_nonneg (le_trans zero_le_one (le_max_left _ _))]

/-- C8 witness: for `W4` (4 pages, 8 MB) and ceiling 4 the estimate is
`max 1 ⌊4 ⋅ 4 / 8⌋ = 2`. -/
theorem c8_witness :
    (0 : ℚ) < 4 ∧ (4 : ℚ) < W4.sizeMB ∧
    (initPpc W4 4 : ℤ) = max 1 ⌊(W4.totalPages : ℚ) * 4 / W4.sizeMB⌋ :=
  ⟨by norm_num, by norm_num [W4],
    c8_initial_estimate_formula W4 4 (by norm_num) (by norm_num [W4])⟩

/-- C9 counterexample: fragment filenames always end in the literal
lowercase `.pdf`, not the source document's original extension.  `WPDF` has
original extension `.PDF` and passes the batch driver's case-insensitive
candidate test, yet its accepted fragment's path is not
`{stem}_part1{original_extension}`. -/
theorem c9_counterexample :
    isPdfCandidate WPDF = true ∧
    WPDF.suffix = ".PDF" ∧
    (split_pdf WPDF 1).2 = Except.ok [⟨0, 1, 1, partPath WPDF 1⟩] ∧
    partPath WPDF 1 ≠
      WPDF.parent ++ "/" ++ WPDF.stem ++ "_part" ++ toString 1 ++ WPDF.suffix := by
  refine ⟨by decide, rfl, by rw [WPDF_run], by decide⟩

/-- C9 (amended): every accepted fragment is written in the source
document's directory with filename `{stem}_part{ordinal}.pdf` — the
extension is the literal lowercase `.pdf`, which coincides with the original
extension exactly when that extension is `.pdf` — and the ordinals start at
1 and increase by 1 per accepted fragment. -/
theorem c9_fragment_naming (d : Doc) (c : ℚ) (hgt : c < d.sizeMB) :
    ∀ l, (split_pdf d c).2 = Except.ok l →
      (∀ f ∈ l, f.path =
        d.parent ++ "/" ++ (d.stem ++ "_part" ++ toString f.num ++ ".pdf")) ∧
      l.map Frag.num = List.range' 1 l.length := by
  intro l hok
  obtain ⟨-, hfacts, hmap⟩ := split_pdf_ok_spec d c (not_le.mpr hgt) l hok
  exact ⟨fun f hf => (hfacts f hf).1, hmap⟩

/-- C9 witness: the two fragments of the `W2` run are `s_part1.pdf` and
`s_part2.pdf` in directory `p`, with consecutive ordinals from 1. -/
theorem c9_witness :
    (⟨0, 2, 1, partPath W2 1⟩ : Frag).path =
      W2.parent ++ "/" ++ (W2.stem ++ "_part" ++ toString (1 : ℕ) ++ ".pdf") ∧
    ([⟨0, 2, 1, partPath W2 1⟩, ⟨2, 1, 2, partPath W2 2⟩] : List Frag).map
      Frag.num = List.range' 1 2 := by
  have h := c9_fragment_naming W2 2 (by norm_num [W2])
    [⟨0, 2, 1, partPath W2 1⟩, ⟨2, 1, 2, partPath W2 2⟩] (by rw [W2_run])
  exact ⟨h.1 _ (by simp), h.2⟩

/-- C10: a zero-page document whose file size exceeds the ceiling (outside
the spec's stated precondition) is handled without error: the planner
returns the empty fragment list, records no filesystem event, and the batch
summary does not count the document as split. -/
theorem c10_zero_page_document (d : Doc) (c : ℚ) (hpages : d.totalPages = 0)
    (hgt : c < d.sizeMB) (ho : d.openFail = false) :
    split_pdf d c = ([], Except.ok []) ∧
    processPdfs [d] c = ([Except.ok []], 0) := by
  have h : split_pdf d c = ([], .ok []) := by
    rw [split_pdf, if_neg (not_le.mpr hgt), if_neg (by simp [ho]), splitLoop,
      dif_neg (by omega)]
  refine ⟨h, ?_⟩
  simp [processPdfs, processLoop, h, splitSucceeded]

/-- C10 witness: `W0` (0 pages, 2 MB) against ceiling 1. -/
theorem c10_witness :
    W0.totalPages = 0 ∧ (1 : ℚ) < W0.sizeMB ∧
    split_pdf W0 1 = ([], Except.ok []) ∧
    processPdfs [W0] 1 = ([Except.ok []], 0) := by
  have h := c10_zero_page_document W0 1 rfl (by norm_num [W0]) rfl
  exact ⟨rfl, by norm_num [W0], h.1, h.2⟩
